import Mathlib

/-!
Verification of the employment-letter template engine (`o3_templates.py`).

Text is modelled as `List Char`.  Python's string primitives used by the
program — `in`, `str.replace`, `str.strip`, `str.split()`, `str.split(sep)`,
`", ".join` — are embedded below, and the program's functions
(`get_arabic_name`, `derive_country_from_address`, the relation-field
unwrapping, the date normalisation in `get_employee_by_id`,
`replace_placeholder_in_paragraph`, `fill_template`, …) are translated on
top of them.
-/

namespace Templates

abbrev Str := List Char

/-- Convert a Lean string literal to the `List Char` representation. -/
def lit (s : String) : Str := s.data

/-- Python whitespace (`str.split` / `str.strip` class): space, tab, newline,
carriage return, vertical tab, form feed. -/
def pySpace (c : Char) : Bool :=
  c = ' ' || c = '\t' || c = '\n' || c = '\r' || c = '\x0b' || c = '\x0c'

/-- Python `str.strip()`. -/
def pyStrip (s : Str) : Str :=
  ((s.dropWhile pySpace).reverse.dropWhile pySpace).reverse

/-- Helper for `splitWs`: walk the characters, `acc` holding the reversed
current token. -/
def splitWsAux : Str → Str → List Str
  | [], acc => if acc = [] then [] else [acc.reverse]
  | c :: rest, acc =>
    if pySpace c then
      if acc = [] then splitWsAux rest [] else acc.reverse :: splitWsAux rest []
    else splitWsAux rest (c :: acc)

/-- Python `str.split()` (no argument): split on whitespace runs, no empty
tokens. -/
def splitWs (s : Str) : List Str := splitWsAux s []

/-- Python `str.split(sep)` for a one-character separator: keeps empty
segments. -/
def splitSep (sep : Char) : Str → List Str
  | [] => [[]]
  | c :: rest =>
    if c = sep then [] :: splitSep sep rest
    else
      match splitSep sep rest with
      | [] => [[c]]
      | t :: ts => (c :: t) :: ts

/-- Python `sub in s` substring test. -/
def hasSubstr (p : Str) : Str → Bool
  | [] => p.isEmpty
  | c :: t => p.isPrefixOf (c :: t) || hasSubstr p t

/-- Fuel-indexed worker for `replaceAll`; the fuel dominates the length of
the remaining input, so it is never exhausted when called through
`replaceAll`. -/
def replaceAllAux (p v : Str) : Nat → Str → Str
  | _, [] => []
  | 0, s => s
  | fuel + 1, c :: t =>
    if p ≠ [] ∧ p.isPrefixOf (c :: t) then
      v ++ replaceAllAux p v fuel ((c :: t).drop p.length)
    else c :: replaceAllAux p v fuel t

/-- Python `s.replace(p, v)`: left-to-right, non-overlapping replacement of
every occurrence of `p` by `v` (for non-empty `p`; `str.replace` with an
empty pattern is never exercised by the program since every placeholder
token is non-empty). -/
def replaceAll (p v s : Str) : Str := replaceAllAux p v s.length s

/-- Decimal digits of a natural number, as Python `str(n)` renders it. -/
def natDigits (n : Nat) : Str := (Nat.repr n).data

/-- Python `str(i)` for an integer. -/
def intToStr (i : Int) : Str :=
  if i < 0 then '-' :: natDigits i.natAbs else natDigits i.natAbs

/-- Two-digit zero-padded decimal rendering (`%d` / `%m` of `strftime`). -/
def pad2 (n : Nat) : Str := [Char.ofNat (48 + n / 10 % 10), Char.ofNat (48 + n % 10)]

/-- Four-digit zero-padded decimal rendering (the `%Y` field of the parsed
input, which `strptime` constrains to exactly four digits). -/
def pad4 (n : Nat) : Str :=
  [Char.ofNat (48 + n / 1000 % 10), Char.ofNat (48 + n / 100 % 10),
   Char.ofNat (48 + n / 10 % 10), Char.ofNat (48 + n % 10)]

/-- Python `", ".join([part for part in parts if part])`. -/
def joinNonEmpty (parts : List Str) : Str :=
  List.intercalate (lit ", ") (parts.filter (fun p => p ≠ []))

/-! ## Record normalizer: field-level helpers -/

/-- `get_arabic_name(employee)`: the custom Arabic-name field, stripped, if
non-empty; otherwise the stripped Latin `name` field. -/
def get_arabic_name (arabicField latinName : Str) : Str :=
  let n := pyStrip arabicField
  if n ≠ [] then n else pyStrip latinName

/-- Modelled from the spec (§4.1 Arabic-name fallback chain): try each
member of an ordered list of field aliases, return the first whose stripped
value is non-empty, else the fallback.  Used to compare `get_arabic_name`
(the source's resolver, whose alias list is the single custom field)
against the spec's chain-of-aliases description. -/
def chainResolveSpec (aliases : List Str) (fallback : Str) : Str :=
  match aliases with
  | [] => fallback
  | a :: rest =>
    let t := pyStrip a
    if t ≠ [] then t else chainResolveSpec rest fallback

/-- `derive_country_from_address`: last non-empty stripped line when the
address contains a newline; otherwise last non-empty stripped
comma-segment; empty string as final fallback. -/
def derive_country_from_address (address : Str) : Str :=
  if address = [] then []
  else
    let viaNewline : Option Str :=
      if address.contains '\n' then
        (((splitSep '\n' address).map pyStrip).filter (fun l => l ≠ [])).getLast?
      else none
    match viaNewline with
    | some l => l
    | none =>
      match (((splitSep ',' address).map pyStrip).filter (fun p => p ≠ [])).getLast? with
      | some p => p
      | none => []

/-- Last non-empty stripped segment of a segment list (or empty). Helper for
stating the country-derivation claim. -/
def lastNonEmptyStripped (segs : List Str) : Str :=
  match ((segs.map pyStrip).filter (fun p => p ≠ [])).getLast? with
  | some p => p
  | none => []

/-- A relation-valued field as delivered by the external store: Python
`False`/`None`/absent, a plain scalar string, an `[id, label]` pair, or a
one-element `[id]` list.  (An empty list is falsy in Python exactly like
`pyFalse` and is folded into it.) -/
inductive RelField where
  | pyFalse
  | scalar (s : Str)
  | pair (id : Int) (label : Str)
  | single (id : Int)
deriving DecidableEq, Repr

/-- Python truthiness of a `RelField` value. -/
def RelField.truthy : RelField → Bool
  | .pyFalse => false
  | .scalar s => s ≠ []
  | .pair _ _ => true
  | .single _ => true

/-- The id component when the field is a (non-empty) list/tuple. -/
def RelField.relId : RelField → Option Int
  | .pair i _ => some i
  | .single i => some i
  | _ => none

/-- The relation-unwrapping idiom of `get_employee_by_id` (company and
department): `field[1] if len(field) > 1 else str(field[0])` when the field
is a truthy list/tuple, `str(field)` when it is a truthy scalar, and the
empty string otherwise. -/
def unwrapRelation (f : RelField) : Str :=
  if f.truthy then
    match f with
    | .pair _ label => label
    | .single i => intToStr i
    | .scalar s => s
    | .pyFalse => []
  else []

/-! ## Date normalisation (`strptime(raw, "%Y-%m-%d")` then
`strftime("%d/%m/%Y")`) -/

/-- Value of a decimal digit character. -/
def digitVal (c : Char) : Nat := c.toNat - 48

/-- Read one or two decimal digits greedily (the `%m` / `%d` fields of
`strptime`, whose regexes match at most two digits; greediness agrees with
the regex because the character after the field is never a digit). -/
def parse2 : Str → Option (Nat × Str)
  | [] => none
  | c :: rest =>
    if c.isDigit then
      match rest with
      | d :: rest2 =>
        if d.isDigit then some (digitVal c * 10 + digitVal d, rest2)
        else some (digitVal c, rest)
      | [] => some (digitVal c, [])
    else none

/-- Gregorian leap year, as `datetime` checks it. -/
def isLeap (y : Nat) : Bool := y % 4 = 0 && (y % 100 ≠ 0 || y % 400 = 0)

/-- Days in a month, as `datetime` validates the day field. -/
def daysInMonth (y m : Nat) : Nat :=
  if m = 2 then (if isLeap y then 29 else 28)
  else if m = 4 ∨ m = 6 ∨ m = 9 ∨ m = 11 then 30 else 31

/-- `datetime.strptime(s, "%Y-%m-%d")`: exactly four digits, `-`, one or two
digits forming 1–12, `-`, one or two digits, end of input; the day is then
validated against the calendar and the year against `MINYEAR = 1`.  Any
mismatch (including trailing characters such as a time-of-day component)
raises in Python, modelled as `none`. -/
def strptimeYMD (s : Str) : Option (Nat × Nat × Nat) :=
  match s with
  | y1 :: y2 :: y3 :: y4 :: sep1 :: rest =>
    if y1.isDigit && y2.isDigit && y3.isDigit && y4.isDigit && sep1 = '-' then
      match parse2 rest with
      | some (m, sep2 :: rest2) =>
        if sep2 = '-' then
          match parse2 rest2 with
          | some (d, []) =>
            let y := ((digitVal y1 * 10 + digitVal y2) * 10 + digitVal y3) * 10 + digitVal y4
            if 1 ≤ y ∧ 1 ≤ m ∧ m ≤ 12 ∧ 1 ≤ d ∧ d ≤ daysInMonth y m then
              some (y, m, d)
            else none
          | _ => none
        else none
      | _ => none
    else none
  | _ => none

/-- The joining-date / contract-end-date processing of `get_employee_by_id`:
parse `YYYY-MM-DD`, reformat as `DD/MM/YYYY` (`strftime` zero-pads day and
month; glibc's `%Y` renders the year unpadded), and on any parse failure
return the raw string unchanged.  An empty (falsy) raw value yields the
empty string. -/
def normalizeDate (raw : Str) : Str :=
  if raw = [] then []
  else
    match strptimeYMD raw with
    | some (y, m, d) => pad2 d ++ '/' :: pad2 m ++ '/' :: natDigits y
    | none => raw

/-- The `first_name` computation of `get_employee_by_id` (line 259):
`employee.get('name', '').split()[0] if employee.get('name') else ''`.
`none` models the `IndexError` raised by `[0]` when a non-empty name
consists only of whitespace (so `split()` returns an empty list); that
exception is caught by the function's outermost handler, which abandons
the whole record. -/
def firstNameField (name : Str) : Option Str :=
  if name ≠ [] then
    match splitWs name with
    | [] => none
    | t :: _ => some t
  else some []

/-! ## Record-store boundary and secondary lookups -/

/-- Kind of exception an external call may raise: an `xmlrpc.client.Fault`
(the only kind the contract-wage read handles locally) or any other
exception. -/
inductive PyErr where
  | fault
  | other
deriving DecidableEq, Repr

instance {ε α : Type} [DecidableEq ε] [DecidableEq α] : DecidableEq (Except ε α) :=
  fun x y =>
    match x, y with
    | .ok a, .ok b =>
      if h : a = b then .isTrue (by rw [h])
      else .isFalse (by intro hc; cases hc; exact h rfl)
    | .error a, .error b =>
      if h : a = b then .isTrue (by rw [h])
      else .isFalse (by intro hc; cases hc; exact h rfl)
    | .ok _, .error _ => .isFalse (fun hc => Except.noConfusion hc)
    | .error _, .ok _ => .isFalse (fun hc => Except.noConfusion hc)

/-- A partner (`res.partner`) record as read by `get_partner_address`. -/
structure PartnerRec where
  street : Str
  street2 : Str
  city : Str
  zip : Str
  country_id : RelField
deriving DecidableEq, Repr

/-- Outcomes of the remote reads performed by the secondary lookups.  Each
field models one `execute_kw` call: `.error` is a raised exception,
`.ok none` an empty result list (or, for the head-of-people-&-culture
search, no matching employee), and `.ok (some v)` a successful read. -/
structure OdooEnv where
  company_registry : Int → Except Unit (Option Str)
  company_arabic : Int → Except Unit (Option Str)
  head_pc : Int → Except Unit (Option Str)
  head_pc_rec : Int → Except Unit (Option (Str × Str))
  partner_rec : Int → Except Unit (Option PartnerRec)
  partner_arabic : Int → Except Unit (Option Str)
  contracts : Int → Except PyErr (List Int)

/-- `get_company_registrar`: the company's `company_registry` field, with
any exception or empty result degraded to the empty string. -/
def get_company_registrar (env : OdooEnv) (cid : Int) : Str :=
  match env.company_registry cid with
  | .ok (some v) => v
  | .ok none => []
  | .error _ => []

/-- `get_company_arabic_name`: the company's `arabic_name` field, with any
exception or empty result degraded to the empty string. -/
def get_company_arabic_name (env : OdooEnv) (cid : Int) : Str :=
  match env.company_arabic cid with
  | .ok (some v) => v
  | .ok none => []
  | .error _ => []

/-- `get_head_people_and_culture`: name of the first employee whose job
title matches, or empty when none is found or the calls raise. -/
def get_head_people_and_culture (env : OdooEnv) (cid : Int) : Str :=
  match env.head_pc cid with
  | .ok (some v) => v
  | .ok none => []
  | .error _ => []

/-- `get_head_people_and_culture_arabic`: reads the matching employee's
custom Arabic-name field and `name` and resolves them through
`get_arabic_name`; empty on no match or exception. -/
def get_head_people_and_culture_arabic (env : OdooEnv) (cid : Int) : Str :=
  match env.head_pc_rec cid with
  | .ok (some (a, n)) => get_arabic_name a n
  | .ok none => []
  | .error _ => []

/-- The country component of `get_partner_address`: `country_id[1]` when the
field is a list of length > 1, else `str(country_id)` (Python's rendering of
the raw field) when truthy, else empty. -/
def partnerCountry (f : RelField) : Str :=
  if f.truthy then
    match f with
    | .pair _ label => label
    | .single i => '[' :: intToStr i ++ [']']
    | .scalar s => s
    | .pyFalse => []
  else []

/-- `get_partner_address`: comma-join of the non-empty of street, street2,
city, zip and country; empty on exception or empty result. -/
def get_partner_address (env : OdooEnv) (pid : Int) : Str :=
  match env.partner_rec pid with
  | .ok (some p) =>
    joinNonEmpty [p.street, p.street2, p.city, p.zip, partnerCountry p.country_id]
  | .ok none => []
  | .error _ => []

/-- `get_arabic_partner_address`: the partner's custom Arabic address,
stripped; empty on exception, empty result, or falsy field. -/
def get_arabic_partner_address (env : OdooEnv) (pid : Int) : Str :=
  match env.partner_arabic pid with
  | .ok (some a) => pyStrip a
  | .ok none => []
  | .error _ => []

/-! ## The primary record and its normalisation -/

/-- The employee record as read from `hr.employee` (the fields listed in
`fields_to_read`), with relation-valued fields kept in their raw shape. -/
structure RawEmployee where
  id : Int
  name : Str
  job_title : Str
  joining_date : Str
  arabic_name_field : Str
  identification : Str
  company_id : RelField
  address_id : RelField
  contract_end_date : Str
  department_id : RelField
deriving DecidableEq, Repr

/-- The flat record returned by `get_employee_by_id` (plus the
caller-supplied `country` / `start_date` / `end_date` travel fields, which
the returned dict does not contain and `fill_template` therefore reads via
`.get(..., '')`; they are empty here). -/
structure CanonicalRecord where
  id : Int
  name : Str
  first_name : Str
  job_title : Str
  identification : Str
  wage : Int
  joining_date : Str
  contract_end_date : Str
  department : Str
  arabic_name : Str
  company : Str
  work_address : Str
  arabic_work_address : Str
  company_registrar : Str
  company_country : Str
  company_arabic_name : Str
  head_people_culture : Str
  head_people_culture_arabic : Str
  country : Str
  start_date : Str
  end_date : Str
deriving DecidableEq, Repr

/-- Company-derived values of `get_employee_by_id` (lines 216–231):
`(company, company_registrar, company_arabic_name, head_people_culture,
head_people_culture_arabic)` before the head-of-people-&-culture defaults
are applied.  The Arabic-name fallback to the Latin company name happens
only inside the list/tuple branch. -/
def companyBlock (env : OdooEnv) (cf : RelField) : Str × Str × Str × Str × Str :=
  match cf with
  | .pair cid label =>
    let ca := get_company_arabic_name env cid
    (label, get_company_registrar env cid,
     if ca = [] then label else ca,
     get_head_people_and_culture env cid,
     get_head_people_and_culture_arabic env cid)
  | .single cid =>
    let company := intToStr cid
    let ca := get_company_arabic_name env cid
    (company, get_company_registrar env cid,
     if ca = [] then company else ca,
     get_head_people_and_culture env cid,
     get_head_people_and_culture_arabic env cid)
  | .scalar s => (if s ≠ [] then s else [], [], [], [], [])
  | .pyFalse => ([], [], [], [], [])

/-- Work-address values of `get_employee_by_id` (lines 242–253):
`(work_address, arabic_work_address)`. -/
def addressBlock (env : OdooEnv) (af : RelField) : Str × Str :=
  match af with
  | .pair pid _ => (get_partner_address env pid, get_arabic_partner_address env pid)
  | .single pid => (get_partner_address env pid, get_arabic_partner_address env pid)
  | .scalar s => if s ≠ [] then (s, []) else ([], [])
  | .pyFalse => ([], [])

/-- The normalisation core of `get_employee_by_id`, given the already-read
employee record: contract-wage read (only an `xmlrpc` `Fault` is handled
locally, any other exception reaches the outermost handler and aborts the
whole fetch, giving `none`), date normalisation, relation unwrapping,
secondary lookups, defaults, and the final flat record.  `none` also models
the `IndexError` of the `first_name` split on a whitespace-only name. -/
def normalizeEmployee (env : OdooEnv) (emp : RawEmployee) : Option CanonicalRecord :=
  if env.contracts emp.id = .error PyErr.other then none
  else
    let contracts := match env.contracts emp.id with | .ok l => l | .error _ => []
    let wage := contracts.headD 0
    let joining := normalizeDate emp.joining_date
    let contractEnd := normalizeDate emp.contract_end_date
    let department := unwrapRelation emp.department_id
    let arabic := get_arabic_name emp.arabic_name_field emp.name
    let cb := companyBlock env emp.company_id
    let head := if cb.2.2.2.1 = [] then lit "Faisal Abdullah AlMamun" else cb.2.2.2.1
    let headAr := if cb.2.2.2.2 = [] then lit "فيصل عبدالله المأمون" else cb.2.2.2.2
    let ab := addressBlock env emp.address_id
    let companyCountry := derive_country_from_address ab.1
    match firstNameField emp.name with
    | none => none
    | some fn =>
      some {
        id := emp.id
        name := pyStrip emp.name
        first_name := fn
        job_title := pyStrip emp.job_title
        identification := pyStrip emp.identification
        wage := wage
        joining_date := joining
        contract_end_date := contractEnd
        department := department
        arabic_name := arabic
        company := cb.1
        work_address := ab.1
        arabic_work_address := ab.2
        company_registrar := cb.2.1
        company_country := companyCountry
        company_arabic_name := cb.2.2.1
        head_people_culture := head
        head_people_culture_arabic := headAr
        country := []
        start_date := []
        end_date := [] }

/-! ## Document model and substitution engine -/

/-- A run: a span of text with one formatting definition.  `size` models
`run.font.size` (in points, `none` = inherited); `fmt` stands for the
remaining directly-applied character formatting, which the engine never
touches except by creating fresh default-formatted runs (`fmt = 0`,
`size = none`). -/
structure Run where
  text : Str
  size : Option Nat
  fmt : Nat
deriving DecidableEq, Repr

abbrev Paragraph := List Run

/-- A table: rows of cells, each cell a list of paragraphs (the nesting the
code traverses via `table.rows` / `row.cells` / `cell.paragraphs`). -/
abbrev Table := List (List (List Paragraph))

/-- One `doc.sections` entry: its header's and footer's paragraphs and
tables. -/
structure DocSection where
  headerParas : List Paragraph
  headerTables : List Table
  footerParas : List Paragraph
  footerTables : List Table
deriving DecidableEq, Repr

/-- The document: body paragraphs, body tables, sections. -/
structure DocX where
  paragraphs : List Paragraph
  tables : List Table
  sections : List DocSection
deriving DecidableEq, Repr

/-- `paragraph.text`: concatenation of the run texts. -/
def paraText (p : Paragraph) : Str := (p.map Run.text).flatten

/-- `replace_placeholder_in_paragraph`: replace run-locally in every run
whose text contains the token; if no single run contained it, concatenate
all run texts, replace in the concatenation, blank every run and write the
result into the first run. -/
def replace_placeholder_in_paragraph (ph v : Str) (runs : Paragraph) : Paragraph :=
  if runs.any (fun r => hasSubstr ph r.text) then
    runs.map (fun r =>
      if hasSubstr ph r.text then { r with text := replaceAll ph v r.text } else r)
  else
    let full := paraText runs
    if hasSubstr ph full then
      match runs with
      | [] => []
      | r0 :: rest =>
        { r0 with text := replaceAll ph v full } :: rest.map (fun r => { r with text := [] })
    else runs

/-- The placeholder table of `fill_template` (lines 312–337), in insertion
order.  `currentDate` stands for `date.today().strftime("%d/%m/%Y")`. -/
def placeholderTable (currentDate : Str) (ed : CanonicalRecord) (isArabic : Bool) :
    List (Str × Str) :=
  [ (lit "(Current Date)", currentDate),
    (lit "(First and Last Name)", ed.name),
    (lit "(First Name)", ed.first_name),
    (lit "(Position)", ed.job_title),
    (lit "(Salary)", intToStr ed.wage),
    (lit "(DD/MM/YYYY)", ed.joining_date),
    (lit "(Country)", ed.country),
    (lit "(Start Date)", ed.start_date),
    (lit "(End Date)", ed.end_date),
    (lit "(Company)", ed.company),
    (lit "(Work address)", ed.work_address),
    (lit "(Work Address)", ed.work_address),
    (lit "(Arabic Work address)", ed.arabic_work_address),
    (lit "(CR)", ed.company_registrar),
    (lit "(Company Country)", ed.company_country),
    (lit "(CompanyA)", ed.company_arabic_name),
    (lit "(P&C)", ed.head_people_culture),
    (lit "(AP&C)", ed.head_people_culture_arabic),
    (lit "(الاسم الكامل)", if isArabic then ed.arabic_name else ed.name),
    (lit "(بلد الوجهة)", ed.country),
    (lit "(تاريخ البداية)", ed.start_date),
    (lit "(تاريخ النهاية)", ed.end_date),
    (lit "(Contract End Date)", ed.contract_end_date),
    (lit "(Department)", ed.department) ]

/-- The fixed placeholder vocabulary (the keys of the table, independent of
the record's values). -/
def placeholderKeys : List Str :=
  [ lit "(Current Date)", lit "(First and Last Name)", lit "(First Name)",
    lit "(Position)", lit "(Salary)", lit "(DD/MM/YYYY)", lit "(Country)",
    lit "(Start Date)", lit "(End Date)", lit "(Company)",
    lit "(Work address)", lit "(Work Address)", lit "(Arabic Work address)",
    lit "(CR)", lit "(Company Country)", lit "(CompanyA)", lit "(P&C)",
    lit "(AP&C)", lit "(الاسم الكامل)", lit "(بلد الوجهة)",
    lit "(تاريخ البداية)", lit "(تاريخ النهاية)", lit "(Contract End Date)",
    lit "(Department)" ]

/-- Apply `replace_placeholder_in_paragraph` for every placeholder, in table
order (the body/table/header loop of `fill_template`). -/
def fillParagraph (phs : List (Str × Str)) (runs : Paragraph) : Paragraph :=
  phs.foldl (fun rs kv => replace_placeholder_in_paragraph kv.1 kv.2 rs) runs

/-- The footer text pass: `text = para.text`, then for each placeholder
`if key in text: text = text.replace(key, value)`. -/
def footerReplace (phs : List (Str × Str)) (t : Str) : Str :=
  phs.foldl (fun acc kv => if hasSubstr kv.1 acc then replaceAll kv.1 kv.2 acc else acc) t

/-- A footer paragraph after `fill_template`: `para.text = text` rebuilds
the paragraph as one fresh default-formatted run, and the following loop
forces `run.font.size = Pt(8)` on it. -/
def fillFooterParagraph (phs : List (Str × Str)) (runs : Paragraph) : Paragraph :=
  [⟨footerReplace phs (paraText runs), some 8, 0⟩]

/-- Substitute in every cell paragraph of a table. -/
def fillTable (phs : List (Str × Str)) (t : Table) : Table :=
  t.map (fun row => row.map (fun cell => cell.map (fillParagraph phs)))

/-- Substitute in every cell paragraph of a footer table (text-level pass
plus the 8pt font-size forcing, as in lines 371–381). -/
def fillFooterTable (phs : List (Str × Str)) (t : Table) : Table :=
  t.map (fun row => row.map (fun cell => cell.map (fillFooterParagraph phs)))

/-- The second body pass of `fill_template` (lines 383–393): for each of the
five late placeholders, if the token occurs in `para.text`, rewrite the
whole paragraph text (collapsing it to one fresh run) with the token
replaced. -/
def extraKeys (ed : CanonicalRecord) : List (Str × Str) :=
  [ (lit "(CR)", ed.company_registrar),
    (lit "(Company Country)", ed.company_country),
    (lit "(CompanyA)", ed.company_arabic_name),
    (lit "(P&C)", ed.head_people_culture),
    (lit "(AP&C)", ed.head_people_culture_arabic) ]

/-- One `if key in para.text: para.text = para.text.replace(key, value)`
step of the second body pass (the `text` setter collapses the paragraph to
one fresh run). -/
def textSetStep (rs : Paragraph) (kv : Str × Str) : Paragraph :=
  if hasSubstr kv.1 (paraText rs) then [⟨replaceAll kv.1 kv.2 (paraText rs), none, 0⟩]
  else rs

def extraPass (ed : CanonicalRecord) (runs : Paragraph) : Paragraph :=
  (extraKeys ed).foldl textSetStep runs

/-- `fill_template` on an already-loaded document: substitute in body
paragraphs, body tables, header paragraphs/tables, footer
paragraphs/tables, run the second body pass, then remove body paragraphs
whose stripped text is empty (`remove_empty_paragraphs` walks
`doc.paragraphs` only). -/
def fill_template (currentDate : Str) (ed : CanonicalRecord) (isArabic : Bool)
    (doc : DocX) : DocX :=
  let phs := placeholderTable currentDate ed isArabic
  let body := (doc.paragraphs.map (fillParagraph phs)).map (extraPass ed)
  { paragraphs := body.filter (fun p => pyStrip (paraText p) ≠ [])
    tables := doc.tables.map (fillTable phs)
    sections := doc.sections.map (fun s =>
      { headerParas := s.headerParas.map (fillParagraph phs)
        headerTables := s.headerTables.map (fillTable phs)
        footerParas := s.footerParas.map (fillFooterParagraph phs)
        footerTables := s.footerTables.map (fillFooterTable phs) }) }

/-- Every text-bearing paragraph of a table. -/
def tableParas (t : Table) : List Paragraph := t.flatten.flatten

/-- Every text-bearing paragraph of the document: body, body-table cells,
header paragraphs/tables, footer paragraphs/tables. -/
def allParas (d : DocX) : List Paragraph :=
  d.paragraphs ++ (d.tables.map tableParas).flatten ++
    (d.sections.map (fun s =>
      s.headerParas ++ (s.headerTables.map tableParas).flatten ++
        s.footerParas ++ (s.footerTables.map tableParas).flatten)).flatten

/-! ## Lemmas about the string primitives -/

theorem hasSubstr_eq_true_iff (p s : Str) : hasSubstr p s = true ↔ p <:+: s := by
  induction s with
  | nil =>
    simp [hasSubstr, List.isEmpty_iff]
  | cons c t ih =>
    simp only [hasSubstr, Bool.or_eq_true, ih,  List.infix_cons_iff,
       List.isPrefixOf_iff_prefix]

theorem hasSubstr_mono {p s₁ s₂ : Str} (hsub : s₁ <:+: s₂)
    (h : hasSubstr p s₁ = true) : hasSubstr p s₂ = true :=
  (hasSubstr_eq_true_iff p s₂).mpr (((hasSubstr_eq_true_iff p s₁).mp h).trans hsub)

theorem hasSubstr_nil {p : Str} (hp : p ≠ []) : hasSubstr p [] = false := by
  cases p with
  | nil => exact absurd rfl hp
  | cons c t => simp [hasSubstr]

theorem hasSubstr_self {p : Str} : hasSubstr p p = true :=
  (hasSubstr_eq_true_iff p p).mpr (List.infix_refl p)

/-- The worker of `replaceAll` ignores the exact amount of fuel as long as
it dominates the input length. -/
theorem replaceAllAux_congr {p v : Str} :
    ∀ {f1 f2 : Nat} {s : Str}, s.length ≤ f1 → s.length ≤ f2 →
    replaceAllAux p v f1 s = replaceAllAux p v f2 s := by
  intro f1
  induction f1 with
  | zero =>
    intro f2 s h1 _
    have : s = [] := List.eq_nil_of_length_eq_zero (Nat.le_zero.mp h1)
    subst this
    cases f2 <;> rfl
  | succ f1' ih =>
    intro f2 s h1 h2
    cases s with
    | nil => cases f2 <;> rfl
    | cons c t =>
      cases f2 with
      | zero => exact absurd h2 (by simp)
      | succ f2' =>
        show (if p ≠ [] ∧ p.isPrefixOf (c :: t) then
            v ++ replaceAllAux p v f1' ((c :: t).drop p.length)
          else c :: replaceAllAux p v f1' t) =
          (if p ≠ [] ∧ p.isPrefixOf (c :: t) then
            v ++ replaceAllAux p v f2' ((c :: t).drop p.length)
          else c :: replaceAllAux p v f2' t)
        by_cases hc : p ≠ [] ∧ p.isPrefixOf (c :: t)
        · rw [if_pos hc, if_pos hc]
          have hp : 0 < p.length := List.length_pos.mpr hc.1
          have hdrop : ((c :: t).drop p.length).length ≤ f1' := by
            simp only [List.length_drop, List.length_cons] at h1 ⊢
            omega
          have hdrop2 : ((c :: t).drop p.length).length ≤ f2' := by
            simp only [List.length_drop, List.length_cons] at h2 ⊢
            omega
          rw [ih hdrop hdrop2]
        · rw [if_neg hc, if_neg hc]
          have ht1 : t.length ≤ f1' := by
            simp only [List.length_cons] at h1
            omega
          have ht2 : t.length ≤ f2' := by
            simp only [List.length_cons] at h2
            omega
          rw [ih ht1 ht2]

/-- The defining one-step unfolding of `replaceAll`. -/
theorem replaceAll_eq_step (p v s : Str) :
    replaceAll p v s =
      if p ≠ [] ∧ p.isPrefixOf s then v ++ replaceAll p v (s.drop p.length)
      else
        match s with
        | [] => []
        | c :: t => c :: replaceAll p v t := by
  cases s with
  | nil =>
    show replaceAllAux p v 0 [] = _
    by_cases hc : p ≠ [] ∧ p.isPrefixOf ([] : Str)
    · have := List.prefix_nil.mp ( List.isPrefixOf_iff_prefix.mp hc.2)
      exact absurd this hc.1
    · rw [if_neg hc]
      rfl
  | cons c t =>
    show replaceAllAux p v (t.length + 1) (c :: t) = _
    show (if p ≠ [] ∧ p.isPrefixOf (c :: t) then
        v ++ replaceAllAux p v t.length ((c :: t).drop p.length)
      else c :: replaceAllAux p v t.length t) = _
    by_cases hc : p ≠ [] ∧ p.isPrefixOf (c :: t)
    · rw [if_pos hc, if_pos hc]
      have hp : 0 < p.length := List.length_pos.mpr hc.1
      have : ((c :: t).drop p.length).length ≤ t.length := by
        simp only [List.length_drop, List.length_cons]
        omega
      rw [show replaceAll p v ((c :: t).drop p.length)
          = replaceAllAux p v ((c :: t).drop p.length).length ((c :: t).drop p.length) from rfl]
      rw [replaceAllAux_congr this (Nat.le_refl _)]
    · rw [if_neg hc, if_neg hc]
      rfl

theorem replaceAll_self {p : Str} (v : Str) (hp : p ≠ []) : replaceAll p v p = v := by
  rw [replaceAll_eq_step]
  have hpre : p.isPrefixOf p = true :=
     List.isPrefixOf_iff_prefix.mpr (List.prefix_refl p)
  rw [if_pos ⟨hp, hpre⟩, List.drop_length]
  rw [replaceAll_eq_step]
  have : ¬(p ≠ [] ∧ p.isPrefixOf ([] : Str) = true) := by
    rintro ⟨h1, h2⟩
    have := List.isPrefixOf_iff_prefix.mp h2
    simp at this
    exact h1 this
  rw [if_neg this]
  simp

theorem replaceAll_noop {p : Str} (v : Str) {s : Str}
    (h : hasSubstr p s = false) : replaceAll p v s = s := by
  induction s with
  | nil =>
    rw [replaceAll_eq_step]
    split
    · rename_i hc
      have hnil := List.prefix_nil.mp ( List.isPrefixOf_iff_prefix.mp hc.2)
      exact absurd hnil hc.1
    · rfl
  | cons c t ih =>
    rw [hasSubstr, Bool.or_eq_false_iff] at h
    rw [replaceAll_eq_step]
    split
    · rename_i hc
      rw [hc.2] at h
      exact absurd h.1 (by simp)
    · show c :: replaceAll p v t = c :: t
      rw [ih h.2]

/-- A run's text is an infix of its paragraph's text. -/
theorem text_infix_paraText {r : Run} {runs : Paragraph} (hmem : r ∈ runs) :
    r.text <:+: paraText runs := by
  obtain ⟨l1, l2, rfl⟩ := List.append_of_mem hmem
  refine ⟨paraText l1, paraText l2, ?_⟩
  simp [paraText]

theorem hasSubstr_run_of_paraText {p : Str} {runs : Paragraph}
    (h : hasSubstr p (paraText runs) = false) {r : Run} (hmem : r ∈ runs) :
    hasSubstr p r.text = false := by
  by_contra hne
  have ht : hasSubstr p r.text = true := by
    cases hb : hasSubstr p r.text with
    | false => exact absurd hb hne
    | true => rfl
  have := hasSubstr_mono (text_infix_paraText hmem) ht
  rw [this] at h
  exact absurd h (by simp)

/-! ## Per-step behaviour of `replace_placeholder_in_paragraph` -/

/-- When the token occurs nowhere in the paragraph's text, the paragraph is
untouched. -/
theorem replace_placeholder_noop {ph : Str} (v : Str) {runs : Paragraph}
    (h : hasSubstr ph (paraText runs) = false) :
    replace_placeholder_in_paragraph ph v runs = runs := by
  unfold replace_placeholder_in_paragraph
  have hany : runs.any (fun r => hasSubstr ph r.text) = false := by
    rw [List.any_eq_false]
    intro r hr
    simp [hasSubstr_run_of_paraText h hr]
  rw [hany]
  simp [h]

/-- All texts produced by mapping a text-emptying function flatten to
nothing. -/
theorem flatten_text_map_eq_nil {f : Run → Run} {l : List Run}
    (h : ∀ x ∈ l, (f x).text = []) :
    (List.map Run.text (List.map f l)).flatten = [] := by
  rw [List.map_map, List.flatten_eq_nil_iff]
  intro x hx
  rw [List.mem_map] at hx
  obtain ⟨a, ha, rfl⟩ := hx
  exact h a ha

/-- When the paragraph's whole text is exactly the token, substitution
rewrites it to exactly the replacement value (run-locally when some run
holds the whole token, else through the paragraph-level fallback). -/
theorem replace_placeholder_exact {ph v : Str} (hp : ph ≠ []) {runs : Paragraph}
    (hjoin : paraText runs = ph) :
    paraText (replace_placeholder_in_paragraph ph v runs) = v := by
  unfold replace_placeholder_in_paragraph
  cases hany : runs.any (fun r => hasSubstr ph r.text) with
  | true =>
    simp only [if_true]
    rw [List.any_eq_true] at hany
    obtain ⟨r, hrmem, hr⟩ := hany
    -- the run holding the token is the whole text; all others are empty
    have hrinfix : r.text <:+: ph := hjoin ▸ text_infix_paraText hrmem
    have hpinfix : ph <:+: r.text := (hasSubstr_eq_true_iff _ _).mp hr
    have hrtext : r.text = ph :=
      hrinfix.sublist.eq_of_length (Nat.le_antisymm hrinfix.length_le hpinfix.length_le)
    obtain ⟨l1, l2, hsplit⟩ := List.append_of_mem hrmem
    have hsum : paraText l1 ++ (r.text ++ paraText l2) = ph := by
      rw [← hjoin, hsplit]
      simp [paraText]
    have hlen := congrArg List.length hsum
    simp only [List.length_append, hrtext] at hlen
    have hl1 : paraText l1 = [] :=
      List.eq_nil_of_length_eq_zero (by omega)
    have hl2 : paraText l2 = [] :=
      List.eq_nil_of_length_eq_zero (by omega)
    have hempty1 : ∀ x ∈ l1, x.text = [] := fun x hx =>
      List.eq_nil_of_infix_nil (hl1 ▸ text_infix_paraText hx)
    have hempty2 : ∀ x ∈ l2, x.text = [] := fun x hx =>
      List.eq_nil_of_infix_nil (hl2 ▸ text_infix_paraText hx)
    subst hsplit
    have hflat1 : (List.map Run.text (List.map (fun r =>
        if hasSubstr ph r.text then { r with text := replaceAll ph v r.text } else r)
          l1)).flatten = [] := by
      apply flatten_text_map_eq_nil
      intro x hx
      simp [hempty1 x hx, hasSubstr_nil hp]
    have hflat2 : (List.map Run.text (List.map (fun r =>
        if hasSubstr ph r.text then { r with text := replaceAll ph v r.text } else r)
          l2)).flatten = [] := by
      apply flatten_text_map_eq_nil
      intro x hx
      simp [hempty2 x hx, hasSubstr_nil hp]
    simp only [paraText, List.map_append, List.map_cons, List.flatten_append,
      List.flatten_cons]
    rw [hflat1, hflat2]
    rw [hr]
    simp only [if_true]
    rw [hrtext]
    simp [replaceAll_self v hp]
  | false =>
    simp only [Bool.false_eq_true, if_false]
    rw [hjoin, hasSubstr_self]
    simp only [if_true]
    cases runs with
    | nil =>
      exact absurd hjoin.symm (by simpa [paraText] using hp)
    | cons r0 rest =>
      have hflat : (List.map Run.text (List.map (fun r : Run =>
          { r with text := ([] : Str) }) rest)).flatten = [] := by
        apply flatten_text_map_eq_nil
        intro x _
        rfl
      simp only [paraText, List.map_cons, List.flatten_cons]
      rw [replaceAll_self v hp, hflat]
      simp

/-! ## Fold-level behaviour of the substitution passes -/

/-- A paragraph containing none of the tokens is left untouched by the main
substitution loop. -/
theorem fillParagraph_noop {phs : List (Str × Str)} {runs : Paragraph}
    (h : ∀ kv ∈ phs, hasSubstr kv.1 (paraText runs) = false) :
    fillParagraph phs runs = runs := by
  induction phs with
  | nil => rfl
  | cons kv rest ih =>
    rw [fillParagraph, List.foldl_cons,
      replace_placeholder_noop kv.2 (h kv (List.mem_cons_self kv rest))]
    exact ih fun kv' hkv' => h kv' (List.mem_cons_of_mem kv hkv')

/-- A paragraph whose whole text is exactly the token `k` ends the main
substitution loop with text exactly `k`'s replacement value, provided the
other tokens do not occur inside `k` and no token occurs inside the
value. -/
theorem fillParagraph_single_token {phs : List (Str × Str)} {k v : Str}
    {runs : Paragraph}
    (hk : k ≠ [])
    (hjoin : paraText runs = k)
    (hmem : (k, v) ∈ phs)
    (hnodup : (phs.map Prod.fst).Nodup)
    (hnosub : ∀ kv ∈ phs, kv.1 ≠ k → hasSubstr kv.1 k = false)
    (hval : ∀ kv ∈ phs, hasSubstr kv.1 v = false) :
    paraText (fillParagraph phs runs) = v := by
  induction phs generalizing runs with
  | nil => exact absurd hmem (List.not_mem_nil _)
  | cons kv rest ih =>
    obtain ⟨k1, v1⟩ := kv
    rw [List.map_cons, List.nodup_cons] at hnodup
    rw [fillParagraph, List.foldl_cons]
    by_cases hhead : k1 = k
    · -- the head entry is (k, v): replace, then the rest is a no-op
      subst hhead
      have hv : v1 = v := by
        rcases List.mem_cons.mp hmem with heq | htail
        · exact (Prod.mk.injEq .. ▸ heq).2.symm
        · exact absurd (List.mem_map.mpr ⟨(k1, v), htail, rfl⟩) hnodup.1
      subst hv
      have hstep := @replace_placeholder_exact k1 v1 hk runs hjoin
      have hrest : fillParagraph rest (replace_placeholder_in_paragraph k1 v1 runs)
          = replace_placeholder_in_paragraph k1 v1 runs := by
        apply fillParagraph_noop
        intro kv' hkv'
        rw [hstep]
        exact hval kv' (List.mem_cons_of_mem _ hkv')
      show paraText (fillParagraph rest (replace_placeholder_in_paragraph k1 v1 runs)) = v1
      rw [hrest, hstep]
    · -- a different token: it does not occur in `k`, so nothing changes
      have hnoop := @replace_placeholder_noop k1 v1 runs
        (by rw [hjoin]; exact hnosub (k1, v1) (List.mem_cons_self _ rest) hhead)
      show paraText (fillParagraph rest (replace_placeholder_in_paragraph k1 v1 runs)) = v
      rw [hnoop]
      have hmem' : (k, v) ∈ rest := by
        rcases List.mem_cons.mp hmem with heq | htail
        · exact absurd (congrArg Prod.fst heq.symm) hhead
        · exact htail
      exact ih hjoin hmem' hnodup.2
        (fun kv' hkv' => hnosub kv' (List.mem_cons_of_mem _ hkv'))
        (fun kv' hkv' => hval kv' (List.mem_cons_of_mem _ hkv'))

/-- The footer text pass leaves token-free text untouched. -/
theorem footerReplace_noop {phs : List (Str × Str)} {t : Str}
    (h : ∀ kv ∈ phs, hasSubstr kv.1 t = false) :
    footerReplace phs t = t := by
  induction phs with
  | nil => rfl
  | cons kv rest ih =>
    rw [footerReplace, List.foldl_cons, if_neg (by simp [h kv (List.mem_cons_self kv rest)])]
    exact ih fun kv' hkv' => h kv' (List.mem_cons_of_mem kv hkv')

/-- The footer text pass on text that is exactly token `k` produces exactly
`k`'s replacement value, under the same side conditions. -/
theorem footerReplace_single_token {phs : List (Str × Str)} {k v : Str}
    (hk : k ≠ [])
    (hmem : (k, v) ∈ phs)
    (hnodup : (phs.map Prod.fst).Nodup)
    (hnosub : ∀ kv ∈ phs, kv.1 ≠ k → hasSubstr kv.1 k = false)
    (hval : ∀ kv ∈ phs, hasSubstr kv.1 v = false) :
    footerReplace phs k = v := by
  induction phs with
  | nil => exact absurd hmem (List.not_mem_nil _)
  | cons kv rest ih =>
    obtain ⟨k1, v1⟩ := kv
    rw [List.map_cons, List.nodup_cons] at hnodup
    rw [footerReplace, List.foldl_cons]
    by_cases hhead : k1 = k
    · subst hhead
      have hv : v1 = v := by
        rcases List.mem_cons.mp hmem with heq | htail
        · exact (Prod.mk.injEq .. ▸ heq).2.symm
        · exact absurd (List.mem_map.mpr ⟨(k1, v), htail, rfl⟩) hnodup.1
      subst hv
      show footerReplace rest (if hasSubstr k1 k1 = true then replaceAll k1 v1 k1 else k1) = v1
      rw [if_pos hasSubstr_self, replaceAll_self v1 hk]
      exact footerReplace_noop fun kv' hkv' =>
        hval kv' (List.mem_cons_of_mem _ hkv')
    · have hmem' : (k, v) ∈ rest := by
        rcases List.mem_cons.mp hmem with heq | htail
        · exact absurd (congrArg Prod.fst heq.symm) hhead
        · exact htail
      show footerReplace rest (if hasSubstr k1 k = true then replaceAll k1 v1 k else k) = v
      rw [if_neg (by simp [hnosub (k1, v1) (List.mem_cons_self _ rest) hhead])]
      exact ih hmem' hnodup.2
        (fun kv' hkv' => hnosub kv' (List.mem_cons_of_mem _ hkv'))
        (fun kv' hkv' => hval kv' (List.mem_cons_of_mem _ hkv'))

/-- The second body pass leaves a paragraph untouched when none of its five
tokens occurs in the paragraph text. -/
theorem extraPass_noop {ed : CanonicalRecord} {runs : Paragraph}
    (h : ∀ kv ∈ extraKeys ed, hasSubstr kv.1 (paraText runs) = false) :
    extraPass ed runs = runs := by
  have main : ∀ (l : List (Str × Str)) (rs : Paragraph),
      (∀ kv ∈ l, hasSubstr kv.1 (paraText rs) = false) →
      l.foldl textSetStep rs = rs := by
    intro l
    induction l with
    | nil => intro rs _; rfl
    | cons kv rest ih =>
      intro rs hrs
      rw [List.foldl_cons]
      have hstep : textSetStep rs kv = rs := by
        rw [textSetStep, if_neg (by simp [hrs kv (List.mem_cons_self kv rest)])]
      rw [hstep]
      exact ih rs fun kv' hkv' => hrs kv' (List.mem_cons_of_mem kv hkv')
  exact main (extraKeys ed) runs h

/-! ## Facts about the placeholder vocabulary -/

set_option maxRecDepth 10000

/-- The table's keys are the fixed vocabulary, whatever the record holds. -/
theorem placeholderTable_keys (cd : Str) (ed : CanonicalRecord) (ia : Bool) :
    (placeholderTable cd ed ia).map Prod.fst = placeholderKeys := rfl

theorem placeholderKeys_nodup : placeholderKeys.Nodup := by decide

theorem placeholderKeys_ne_nil : ∀ k ∈ placeholderKeys, k ≠ [] := by decide

/-- No vocabulary token is a substring of a different vocabulary token. -/
theorem placeholderKeys_pairwise : ∀ t1 ∈ placeholderKeys, ∀ t2 ∈ placeholderKeys,
    t1 = t2 ∨ hasSubstr t1 t2 = false := by decide

/-- The five tokens of the second body pass belong to the vocabulary. -/
theorem extraKeys_mem (ed : CanonicalRecord) :
    ∀ kv ∈ extraKeys ed, kv.1 ∈ placeholderKeys := by
  intro kv hkv
  simp only [extraKeys, List.mem_cons, List.not_mem_nil, or_false] at hkv
  rcases hkv with rfl | rfl | rfl | rfl | rfl <;>
    · show lit _ ∈ placeholderKeys
      decide

/-! ## Claim C6: Arabic-name fallback chain -/

/-- C6: Arabic-name resolution is the first-non-empty-trimmed chain over the
code's alias list (the single custom field `x_studio_employee_arabic_name`)
with the Latin name as final fallback: `get_arabic_name` coincides with the
spec's chain resolver on that list, and the chain resolver returns the
second alias when the first is empty and the fallback when all aliases are
empty. -/
theorem arabic_name_fallback_chain :
    (∀ a n, get_arabic_name a n = chainResolveSpec [a] (pyStrip n))
    ∧ (∀ a b fb, pyStrip a = [] → pyStrip b ≠ [] →
        chainResolveSpec [a, b] fb = pyStrip b)
    ∧ (∀ a b fb, pyStrip a = [] → pyStrip b = [] →
        chainResolveSpec [a, b] fb = fb) := by
  refine ⟨fun a n => ?_, fun a b fb ha hb => ?_, fun a b fb ha hb => ?_⟩
  · simp [get_arabic_name, chainResolveSpec]
  · simp [chainResolveSpec, ha, hb]
  · simp [chainResolveSpec, ha, hb]

/-- Witness for `arabic_name_fallback_chain` at the spec's own example:
aliases `["", "أحمد"]` resolve to `"أحمد"`, and `get_arabic_name` agrees
with the one-alias chain on a concrete employee. -/
theorem arabic_name_fallback_chain_witness :
    chainResolveSpec [lit "", lit "أحمد"] (lit "Jane Doe") = pyStrip (lit "أحمد")
    ∧ chainResolveSpec [lit "", lit ""] (lit "Jane Doe") = lit "Jane Doe"
    ∧ get_arabic_name (lit " أحمد ") (lit "Jane Doe")
        = chainResolveSpec [lit " أحمد "] (pyStrip (lit "Jane Doe")) :=
  ⟨arabic_name_fallback_chain.2.1 _ _ _ (by decide) (by decide),
   arabic_name_fallback_chain.2.2 _ _ _ (by decide) (by decide),
   arabic_name_fallback_chain.1 _ _⟩

/-! ## Claim C7: relation-field unwrapping -/

/-- C7: a relation field delivered as `(17, "Acme Co")` unwraps to the
label `"Acme Co"`, one delivered as `(17,)` unwraps to the stringified id
`"17"`, and a plain scalar value passes through as itself. -/
theorem relation_field_unwrapping :
    unwrapRelation (RelField.pair 17 (lit "Acme Co")) = lit "Acme Co"
    ∧ unwrapRelation (RelField.single 17) = lit "17"
    ∧ (∀ s, unwrapRelation (RelField.scalar s) = s) := by
  refine ⟨by decide, by decide, fun s => ?_⟩
  by_cases h : s = [] <;> simp [unwrapRelation, RelField.truthy, h]

/-! ## Claim C9: address → country derivation -/

/-- C9: the derived country is the last non-empty stripped segment —
split on newline when one is present, else on comma; the concrete example
and the empty address behave as specified. -/
theorem country_derivation :
    derive_country_from_address (lit "12 Main St, Springfield, USA") = lit "USA"
    ∧ derive_country_from_address [] = []
    ∧ (∀ addr, addr.contains '\n' = false →
        derive_country_from_address addr = lastNonEmptyStripped (splitSep ',' addr))
    ∧ (∀ addr l, addr.contains '\n' = true →
        (((splitSep '\n' addr).map pyStrip).filter (fun x => x ≠ [])).getLast? = some l →
        derive_country_from_address addr = l) := by
  refine ⟨by decide, by decide, fun addr hnl => ?_, fun addr l hnl hlast => ?_⟩
  · by_cases h : addr = []
    · subst h; rfl
    · unfold derive_country_from_address lastNonEmptyStripped
      rw [if_neg h, hnl]
      rfl
  · have h : addr ≠ [] := by
      intro h
      rw [h] at hnl
      exact absurd hnl (by decide)
    unfold derive_country_from_address
    rw [if_neg h, hnl]
    show (match (((splitSep '\n' addr).map pyStrip).filter (fun l => l ≠ [])).getLast? with
      | some l => l
      | none =>
        match (((splitSep ',' addr).map pyStrip).filter (fun p => p ≠ [])).getLast? with
        | some p => p
        | none => []) = l
    rw [hlast]

/-- Witness for `country_derivation`: the comma branch on
`"12 Main St, Springfield, USA"` and the newline branch on
`"a\nJordan"`. -/
theorem country_derivation_witness :
    derive_country_from_address (lit "12 Main St, Springfield, USA")
      = lastNonEmptyStripped (splitSep ',' (lit "12 Main St, Springfield, USA"))
    ∧ derive_country_from_address (lit "a\nJordan") = lit "Jordan" :=
  ⟨country_derivation.2.2.1 _ (by decide),
   country_derivation.2.2.2 _ _ (by decide) (by decide)⟩

/-! ## Claim C2: date normalisation -/

theorem digitChar_isDigit {n : Nat} (h : n < 10) :
    (Char.ofNat (48 + n)).isDigit = true := by
  interval_cases n <;> decide

theorem digitVal_digitChar {n : Nat} (h : n < 10) :
    digitVal (Char.ofNat (48 + n)) = n := by
  interval_cases n <;> decide

/-- `strptime` recovers the components of a zero-padded `YYYY-MM-DD`
rendering of a valid date. -/
theorem strptimeYMD_pad {y m d : Nat} (hy2 : y ≤ 9999) (hm2 : m ≤ 99) (hd2 : d ≤ 99)
    (hok : 1 ≤ y ∧ 1 ≤ m ∧ m ≤ 12 ∧ 1 ≤ d ∧ d ≤ daysInMonth y m) :
    strptimeYMD (pad4 y ++ '-' :: (pad2 m ++ '-' :: pad2 d)) = some (y, m, d) := by
  have h1 : y / 1000 % 10 < 10 := Nat.mod_lt _ (by norm_num)
  have h2 : y / 100 % 10 < 10 := Nat.mod_lt _ (by norm_num)
  have h3 : y / 10 % 10 < 10 := Nat.mod_lt _ (by norm_num)
  have h4 : y % 10 < 10 := Nat.mod_lt _ (by norm_num)
  have hm1 : m / 10 % 10 < 10 := Nat.mod_lt _ (by norm_num)
  have hmm : m % 10 < 10 := Nat.mod_lt _ (by norm_num)
  have hdd1 : d / 10 % 10 < 10 := Nat.mod_lt _ (by norm_num)
  have hdd : d % 10 < 10 := Nat.mod_lt _ (by norm_num)
  show strptimeYMD (Char.ofNat (48 + y / 1000 % 10) :: Char.ofNat (48 + y / 100 % 10) ::
    Char.ofNat (48 + y / 10 % 10) :: Char.ofNat (48 + y % 10) :: '-' ::
    (Char.ofNat (48 + m / 10 % 10) :: Char.ofNat (48 + m % 10) :: '-' ::
     Char.ofNat (48 + d / 10 % 10) :: Char.ofNat (48 + d % 10) :: [])) = some (y, m, d)
  rw [strptimeYMD]
  rw [digitChar_isDigit h1, digitChar_isDigit h2, digitChar_isDigit h3,
    digitChar_isDigit h4]
  simp only [Bool.true_and, decide_True, Bool.and_self, if_true]
  rw [digitVal_digitChar h1, digitVal_digitChar h2, digitVal_digitChar h3,
    digitVal_digitChar h4]
  have hy : ((y / 1000 % 10 * 10 + y / 100 % 10) * 10 + y / 10 % 10) * 10 + y % 10 = y := by
    omega
  rw [hy]
  rw [parse2, digitChar_isDigit hm1]
  simp only [if_true]
  rw [digitChar_isDigit hmm]
  simp only [if_true]
  rw [digitVal_digitChar hm1, digitVal_digitChar hmm]
  have hm : m / 10 % 10 * 10 + m % 10 = m := by omega
  rw [hm]
  rw [parse2, digitChar_isDigit hdd1]
  simp only [if_true]
  rw [digitChar_isDigit hdd]
  simp only [if_true]
  rw [digitVal_digitChar hdd1, digitVal_digitChar hdd]
  have hd : d / 10 % 10 * 10 + d % 10 = d := by omega
  rw [hd]
  rw [if_pos hok]

/-- C2 counterexample: a `YYYY-MM-DD` string followed by a time-of-day
component is NOT reformatted — `strptime(raw, "%Y-%m-%d")` rejects the
trailing component, so the raw string passes through unchanged, where the
claim requires `"01/05/2023"`. -/
theorem date_normalization_counterexample :
    normalizeDate (lit "2023-05-01 00:00:00") = lit "2023-05-01 00:00:00"
    ∧ decide (normalizeDate (lit "2023-05-01 00:00:00") = lit "01/05/2023") = false := by
  constructor <;> decide

/-- C2 (amended): a date string of exactly the form `YYYY-MM-DD` denoting a
valid calendar date is reformatted to `DD/MM/YYYY`; every string `strptime`
rejects — including one with a time-of-day suffix — is returned unchanged,
and no exception escapes (the function is total). -/
theorem date_normalization :
    (∀ y m d, y ≤ 9999 → m ≤ 12 → d ≤ 31 →
      1 ≤ y → 1 ≤ m → 1 ≤ d → d ≤ daysInMonth y m →
      normalizeDate (pad4 y ++ '-' :: (pad2 m ++ '-' :: pad2 d))
        = pad2 d ++ '/' :: (pad2 m ++ '/' :: natDigits y))
    ∧ (∀ s, strptimeYMD s = none → normalizeDate s = s) := by
  constructor
  · intro y m d hy2 hm2 hd2 hy1 hm1 hd1 hdm
    have hpad := strptimeYMD_pad hy2 (by omega) (by omega)
      ⟨hy1, hm1, hm2, hd1, hdm⟩
    unfold normalizeDate
    rw [if_neg (by simp [pad4]), hpad]
    rfl
  · intro s hs
    by_cases h : s = []
    · subst h; rfl
    · unfold normalizeDate
      rw [if_neg h, hs]

/-- Witness for `date_normalization`: `"2023-05-01"` becomes
`"01/05/2023"`, and `"not-a-date"` passes through unchanged. -/
theorem date_normalization_witness :
    normalizeDate (lit "2023-05-01") = lit "01/05/2023"
    ∧ normalizeDate (lit "not-a-date") = lit "not-a-date" := by
  constructor
  · have h := date_normalization.1 2023 5 1 (by norm_num) (by norm_num) (by norm_num)
      (by norm_num) (by norm_num) (by norm_num) (by decide)
    exact (by decide : pad4 2023 ++ '-' :: (pad2 5 ++ '-' :: pad2 1) = lit "2023-05-01") ▸
      (by decide : pad2 1 ++ '/' :: (pad2 5 ++ '/' :: natDigits 2023) = lit "01/05/2023") ▸ h
  · exact date_normalization.2 _ (by decide)

/-! ## Claim C3: first-name splitting -/

/-- A benign environment: every secondary read succeeds with simple
values. -/
def envOk : OdooEnv where
  company_registry := fun _ => .ok (some (lit "CR123"))
  company_arabic := fun _ => .ok (some (lit "شركة"))
  head_pc := fun _ => .ok (some (lit "Head Name"))
  head_pc_rec := fun _ => .ok (some (lit "رئيس", lit "Head Name"))
  partner_rec := fun _ => .ok (some ⟨lit "12 Main St", lit "", lit "Springfield",
    lit "", RelField.pair 1 (lit "USA")⟩)
  partner_arabic := fun _ => .ok (some (lit "عنوان"))
  contracts := fun _ => .ok [3000]

/-- An otherwise well-formed employee whose `name` is a single space. -/
def empWsName : RawEmployee where
  id := 1
  name := lit " "
  job_title := lit "Engineer"
  joining_date := lit "2023-05-01"
  arabic_name_field := lit ""
  identification := lit "ID1"
  company_id := RelField.pair 5 (lit "Acme")
  address_id := RelField.pair 7 (lit "addr")
  contract_end_date := lit ""
  department_id := RelField.pair 3 (lit "Design")

/-- C3 counterexample: a whitespace-only (non-empty) raw name makes
`split()[0]` raise `IndexError`, so normalisation aborts (returns no
record) instead of producing `first_name = ""` — the claim's "no
index-out-of-range error" fails. -/
theorem first_name_whitespace_counterexample :
    normalizeEmployee envOk empWsName = none ∧ firstNameField (lit " ") = none := by
  constructor <;> decide

/-- C3 (amended): `first_name` is the first whitespace-delimited token of
the raw name, and the empty string when the raw name is empty; a non-empty
name with no tokens (whitespace-only) instead raises `IndexError` in
`split()[0]`, aborting the record fetch. -/
theorem first_name_splitting :
    (∀ name t ts, splitWs name = t :: ts → firstNameField name = some t)
    ∧ firstNameField [] = some []
    ∧ (∀ name, name ≠ [] → splitWs name = [] → firstNameField name = none) := by
  refine ⟨fun name t ts h => ?_, by decide, fun name hne h => ?_⟩
  · by_cases hn : name = []
    · rw [hn] at h
      exact List.noConfusion h
    · unfold firstNameField
      rw [if_pos hn, h]
  · unfold firstNameField
    rw [if_pos hne, h]

/-- Witness for `first_name_splitting` on `"Jane Doe"` and `" "`. -/
theorem first_name_splitting_witness :
    firstNameField (lit "Jane Doe") = some (lit "Jane")
    ∧ firstNameField (lit " ") = none :=
  ⟨first_name_splitting.1 (lit "Jane Doe") (lit "Jane") [lit "Doe"] (by decide),
   first_name_splitting.2.2 _ (by decide) (by decide)⟩

/-! ## Claims C8 and C10: failure tolerance of the secondary lookups -/

theorem companyBlock_registrar_error {env : OdooEnv} {cf : RelField} {cid : Int}
    (h1 : cf.relId = some cid) (h2 : env.company_registry cid = .error ()) :
    (companyBlock env cf).2.1 = [] := by
  cases cf <;> simp [RelField.relId] at h1 <;> subst h1 <;>
    simp [companyBlock, get_company_registrar, h2]

theorem companyBlock_arabic_empty {env : OdooEnv} {cf : RelField} {cid : Int}
    (h1 : cf.relId = some cid) (h2 : get_company_arabic_name env cid = []) :
    (companyBlock env cf).2.2.1 = (companyBlock env cf).1 := by
  cases cf <;> simp [RelField.relId] at h1 <;> subst h1 <;>
    simp [companyBlock, h2]

theorem companyBlock_head_error {env : OdooEnv} {cf : RelField} {cid : Int}
    (h1 : cf.relId = some cid) (h2 : env.head_pc cid = .error ()) :
    (companyBlock env cf).2.2.2.1 = [] := by
  cases cf <;> simp [RelField.relId] at h1 <;> subst h1 <;>
    simp [companyBlock, get_head_people_and_culture, h2]

theorem companyBlock_headAr_error {env : OdooEnv} {cf : RelField} {cid : Int}
    (h1 : cf.relId = some cid) (h2 : env.head_pc_rec cid = .error ()) :
    (companyBlock env cf).2.2.2.2 = [] := by
  cases cf <;> simp [RelField.relId] at h1 <;> subst h1 <;>
    simp [companyBlock, get_head_people_and_culture_arabic, h2]

theorem addressBlock_error {env : OdooEnv} {af : RelField} {pid : Int}
    (h1 : af.relId = some pid) (h2 : env.partner_rec pid = .error ()) :
    (addressBlock env af).1 = [] := by
  cases af <;> simp [RelField.relId] at h1 <;> subst h1 <;>
    simp [addressBlock, get_partner_address, h2]

/-- What `normalizeEmployee` returns whenever the contract read does not
raise a non-`Fault` exception and the first-name split succeeds. -/
theorem normalizeEmployee_some (env : OdooEnv) (emp : RawEmployee) {fn : Str}
    (hwage : env.contracts emp.id ≠ .error PyErr.other)
    (hfn : firstNameField emp.name = some fn) :
    normalizeEmployee env emp = some {
      id := emp.id
      name := pyStrip emp.name
      first_name := fn
      job_title := pyStrip emp.job_title
      identification := pyStrip emp.identification
      wage := (match env.contracts emp.id with
        | .ok l => l
        | .error _ => []).headD 0
      joining_date := normalizeDate emp.joining_date
      contract_end_date := normalizeDate emp.contract_end_date
      department := unwrapRelation emp.department_id
      arabic_name := get_arabic_name emp.arabic_name_field emp.name
      company := (companyBlock env emp.company_id).1
      work_address := (addressBlock env emp.address_id).1
      arabic_work_address := (addressBlock env emp.address_id).2
      company_registrar := (companyBlock env emp.company_id).2.1
      company_country := derive_country_from_address (addressBlock env emp.address_id).1
      company_arabic_name := (companyBlock env emp.company_id).2.2.1
      head_people_culture :=
        if (companyBlock env emp.company_id).2.2.2.1 = []
        then lit "Faisal Abdullah AlMamun"
        else (companyBlock env emp.company_id).2.2.2.1
      head_people_culture_arabic :=
        if (companyBlock env emp.company_id).2.2.2.2 = []
        then lit "فيصل عبدالله المأمون"
        else (companyBlock env emp.company_id).2.2.2.2
      country := []
      start_date := []
      end_date := [] } := by
  unfold normalizeEmployee
  rw [if_neg hwage, hfn]

/-- C8: with a resolvable name and a contract read that either succeeds or
is rejected with a permission `Fault`, normalisation always returns a
record; a `Fault` degrades the wage to 0, and a failure in any one
secondary lookup degrades just that field: registrar and work address to
the empty string, the company Arabic name to the Latin company name, and
the two head-of-people-&-culture fields to their fixed fallback values. -/
theorem secondary_lookup_failure_tolerance (env : OdooEnv) (emp : RawEmployee)
    (hname : splitWs emp.name ≠ [] ∨ emp.name = [])
    (hwage : env.contracts emp.id ≠ .error PyErr.other) :
    ∃ r, normalizeEmployee env emp = some r
      ∧ (env.contracts emp.id = .error PyErr.fault → r.wage = 0)
      ∧ (∀ cid, emp.company_id.relId = some cid →
          env.company_registry cid = .error () → r.company_registrar = [])
      ∧ (∀ cid, emp.company_id.relId = some cid →
          env.company_arabic cid = .error () → r.company_arabic_name = r.company)
      ∧ (∀ cid, emp.company_id.relId = some cid →
          env.head_pc cid = .error () →
          r.head_people_culture = lit "Faisal Abdullah AlMamun")
      ∧ (∀ cid, emp.company_id.relId = some cid →
          env.head_pc_rec cid = .error () →
          r.head_people_culture_arabic = lit "فيصل عبدالله المأمون")
      ∧ (∀ pid, emp.address_id.relId = some pid →
          env.partner_rec pid = .error () → r.work_address = []) := by
  have hfn : ∃ fn, firstNameField emp.name = some fn := by
    rcases hname with h | h
    · by_cases hn : emp.name = []
      · exact ⟨[], by unfold firstNameField; rw [if_neg (by simp [hn])]⟩
      · cases hs : splitWs emp.name with
        | nil => exact absurd hs h
        | cons t ts => exact ⟨t, by unfold firstNameField; rw [if_pos hn, hs]⟩
    · exact ⟨[], by unfold firstNameField; rw [if_neg (by simp [h])]⟩
  obtain ⟨fn, hfn⟩ := hfn
  refine ⟨_, normalizeEmployee_some env emp hwage hfn, ?_, ?_, ?_, ?_, ?_, ?_⟩
  · intro hf
    show (match env.contracts emp.id with
      | .ok l => l
      | .error _ => ([] : List Int)).headD 0 = (0 : Int)
    rw [hf]
    rfl
  · intro cid h1 h2
    exact companyBlock_registrar_error h1 h2
  · intro cid h1 h2
    exact companyBlock_arabic_empty h1 (by simp [get_company_arabic_name, h2])
  · intro cid h1 h2
    show (if (companyBlock env emp.company_id).2.2.2.1 = []
      then lit "Faisal Abdullah AlMamun"
      else (companyBlock env emp.company_id).2.2.2.1) = lit "Faisal Abdullah AlMamun"
    rw [if_pos (companyBlock_head_error h1 h2)]
  · intro cid h1 h2
    show (if (companyBlock env emp.company_id).2.2.2.2 = []
      then lit "فيصل عبدالله المأمون"
      else (companyBlock env emp.company_id).2.2.2.2) = lit "فيصل عبدالله المأمون"
    rw [if_pos (companyBlock_headAr_error h1 h2)]
  · intro pid h1 h2
    exact addressBlock_error h1 h2

/-- An environment in which every secondary read raises and the contract
read is rejected with a permission `Fault`. -/
def envFail : OdooEnv where
  company_registry := fun _ => .error ()
  company_arabic := fun _ => .error ()
  head_pc := fun _ => .error ()
  head_pc_rec := fun _ => .error ()
  partner_rec := fun _ => .error ()
  partner_arabic := fun _ => .error ()
  contracts := fun _ => .error PyErr.fault

/-- A well-formed employee with tuple-shaped relations. -/
def empJane : RawEmployee where
  id := 9
  name := lit "Jane Doe"
  job_title := lit "Engineer"
  joining_date := lit "2023-05-01"
  arabic_name_field := lit ""
  identification := lit "ID9"
  company_id := RelField.pair 5 (lit "Acme")
  address_id := RelField.pair 7 (lit "addr")
  contract_end_date := lit "2024-05-01"
  department_id := RelField.pair 3 (lit "Design")

/-- Witness for `secondary_lookup_failure_tolerance`: every lookup failing
at once still yields a record with all the degraded values. -/
theorem secondary_lookup_failure_tolerance_witness :
    (normalizeEmployee envFail empJane).map
        (fun r => (r.wage, r.company_registrar,
          decide (r.company_arabic_name = r.company),
          r.head_people_culture, r.head_people_culture_arabic, r.work_address))
      = some (0, [], true, lit "Faisal Abdullah AlMamun",
          lit "فيصل عبدالله المأمون", []) := by
  obtain ⟨r, hr, hw, hreg, hca, hh, hha, hwa⟩ :=
    secondary_lookup_failure_tolerance envFail empJane (Or.inl (by decide)) (by decide)
  rw [hr]
  simp only [Option.map_some']
  rw [hw rfl, hreg 5 rfl rfl, hh 5 rfl rfl, hha 5 rfl rfl, hwa 7 rfl rfl,
    decide_eq_true (hca 5 rfl rfl)]

/-- An environment whose company-Arabic-name lookup returns an empty value
for every company, other lookups succeeding. -/
def envEmptyArabic : OdooEnv :=
  { envOk with company_arabic := fun _ => .ok (some []) }

/-- An employee whose `company_id` arrives as a plain scalar string rather
than an `(id, label)` tuple. -/
def empScalarCompany : RawEmployee where
  id := 3
  name := lit "Jane Doe"
  job_title := lit "Engineer"
  joining_date := lit ""
  arabic_name_field := lit ""
  identification := lit "ID3"
  company_id := RelField.scalar (lit "Acme Co")
  address_id := RelField.pyFalse
  contract_end_date := lit ""
  department_id := RelField.pyFalse

/-- C10 counterexample: with the Arabic-name lookup returning an empty
value for every company, a record whose company field is present as a
scalar normalises to a non-empty `company` with an EMPTY
`company_arabic_name` — the scalar branch never applies the fallback, so
`(CompanyA)` can resolve to empty while `(Company)` is non-empty. -/
theorem company_arabic_scalar_counterexample :
    (normalizeEmployee envEmptyArabic empScalarCompany).map
        (fun r => (r.company, r.company_arabic_name))
      = some (lit "Acme Co", []) := by decide

/-- C10 (amended): when the company relation arrives as a (non-empty)
list/tuple — so the Arabic-name lookup actually runs — an empty lookup
result makes `company_arabic_name` fall back to the Latin company name. -/
theorem company_arabic_name_fallback (env : OdooEnv) (emp : RawEmployee) (cid : Int)
    (hname : splitWs emp.name ≠ [] ∨ emp.name = [])
    (hwage : env.contracts emp.id ≠ .error PyErr.other)
    (h1 : emp.company_id.relId = some cid)
    (h2 : get_company_arabic_name env cid = []) :
    ∃ r, normalizeEmployee env emp = some r
      ∧ r.company_arabic_name = r.company := by
  have hfn : ∃ fn, firstNameField emp.name = some fn := by
    rcases hname with h | h
    · by_cases hn : emp.name = []
      · exact ⟨[], by unfold firstNameField; rw [if_neg (by simp [hn])]⟩
      · cases hs : splitWs emp.name with
        | nil => exact absurd hs h
        | cons t ts => exact ⟨t, by unfold firstNameField; rw [if_pos hn, hs]⟩
    · exact ⟨[], by unfold firstNameField; rw [if_neg (by simp [h])]⟩
  obtain ⟨fn, hfn⟩ := hfn
  exact ⟨_, normalizeEmployee_some env emp hwage hfn, companyBlock_arabic_empty h1 h2⟩

/-- An employee like `empJane` but belonging to company 11. -/
def empTupleCompany : RawEmployee :=
  { empJane with id := 4, company_id := RelField.pair 11 (lit "Acme Co") }

/-- Witness for `company_arabic_name_fallback` on a tuple-shaped company
with an empty Arabic-name lookup. -/
theorem company_arabic_name_fallback_witness :
    (normalizeEmployee envEmptyArabic empTupleCompany).map
        (fun r => decide (r.company_arabic_name = r.company)) = some true := by
  obtain ⟨r, hr, hfb⟩ :=
    company_arabic_name_fallback envEmptyArabic empTupleCompany 11
      (Or.inl (by decide)) (by decide) (by decide) (by decide)
  rw [hr]
  simp only [Option.map_some']
  rw [decide_eq_true hfb]

/-! ## Claims C1, C4, C5: the substitution engine -/

theorem paraText_single {t : Str} {sz : Option Nat} {f : Nat} :
    paraText [⟨t, sz, f⟩] = t := by
  simp [paraText]

/-- A canonical record with plain, token-free values. -/
def edPlain : CanonicalRecord where
  id := 9
  name := lit "Jane Doe"
  first_name := lit "Jane"
  job_title := lit "Engineer"
  identification := lit "ID9"
  wage := 3000
  joining_date := lit "01/05/2023"
  contract_end_date := lit "01/05/2024"
  department := lit "Design"
  arabic_name := lit "جين دو"
  company := lit "Acme"
  work_address := lit "12 Main St, USA"
  arabic_work_address := lit "عنوان"
  company_registrar := lit "CR123"
  company_country := lit "USA"
  company_arabic_name := lit "اكمي"
  head_people_culture := lit "Head Name"
  head_people_culture_arabic := lit "رئيس"
  country := lit ""
  start_date := lit ""
  end_date := lit ""

/-! ### Claim C4: formatting preservation -/

/-- A body paragraph whose token `(First Name)` is split across two runs,
followed by a third, token-free run. -/
def doc3Runs : DocX where
  paragraphs := [[⟨lit "(First ", none, 1⟩, ⟨lit "Name)", none, 2⟩, ⟨lit "xyz", none, 3⟩]]
  tables := []
  sections := []

/-- C4 counterexample: the third run `"xyz"` contains no placeholder token
and sits in a body paragraph (not a footer), yet after `fill_template` its
text has been blanked by the paragraph-level fallback (which rewrote the
whole text into the first run) — its text is not preserved. -/
theorem formatting_preservation_counterexample :
    placeholderKeys.all (fun t => !hasSubstr t (lit "xyz")) = true
    ∧ (fill_template (lit "01/01/2024") edPlain false doc3Runs).paragraphs
      = [[⟨lit "Janexyz", none, 1⟩, ⟨[], none, 2⟩, ⟨[], none, 3⟩]] := by
  constructor <;> decide

/-- C4 (amended): a run is untouched (text and font attributes) by the
substitution passes whenever its whole paragraph's text contains no
placeholder token (per-run preservation fails when another run of the same
paragraph triggers the paragraph-level fallback); every footer paragraph,
token-bearing or not, is collapsed into a single fresh run whose font size
is the fixed 8pt constant. -/
theorem formatting_preservation :
    (∀ cd ed ia runs, (∀ t ∈ placeholderKeys, hasSubstr t (paraText runs) = false) →
      fillParagraph (placeholderTable cd ed ia) runs = runs ∧ extraPass ed runs = runs)
    ∧ (∀ cd ed ia runs, ∃ t, fillFooterParagraph (placeholderTable cd ed ia) runs
        = [⟨t, some 8, 0⟩]) := by
  constructor
  · intro cd ed ia runs h
    constructor
    · apply fillParagraph_noop
      intro kv hkv
      apply h
      rw [← placeholderTable_keys cd ed ia]
      exact List.mem_map.mpr ⟨kv, hkv, rfl⟩
    · apply extraPass_noop
      intro kv hkv
      exact h kv.1 (extraKeys_mem ed kv hkv)
  · intro cd ed ia runs
    exact ⟨_, rfl⟩

/-- Witness for `formatting_preservation` on a token-free paragraph and a
footer paragraph with non-default formatting. -/
theorem formatting_preservation_witness :
    fillParagraph (placeholderTable (lit "01/01/2024") edPlain false)
        [⟨lit "plain text", some 11, 7⟩] = [⟨lit "plain text", some 11, 7⟩]
    ∧ extraPass edPlain [⟨lit "plain text", some 11, 7⟩]
        = [⟨lit "plain text", some 11, 7⟩] :=
  formatting_preservation.1 (lit "01/01/2024") edPlain false
    [⟨lit "plain text", some 11, 7⟩] (by decide)

/-! ### Claim C5: unresolved placeholders -/

theorem keys_not_in_unknown :
    ∀ k ∈ placeholderKeys, hasSubstr k (lit "(Unknown Token)") = false := by decide

/-- A document whose only paragraph is a placeholder-shaped token outside
the vocabulary. -/
def docUnknownToken : DocX where
  paragraphs := [[⟨lit "(Unknown Token)", none, 0⟩]]
  tables := []
  sections := []

/-- C5 counterexample: a placeholder-shaped token absent from the
vocabulary is never replaced — the literal token text survives
`fill_template` verbatim, where the claim requires the empty string at
that position. -/
theorem unresolved_token_counterexample :
    paraText ((fill_template (lit "01/01/2024") edPlain false
        docUnknownToken).paragraphs.headD []) = lit "(Unknown Token)" := by decide

/-- C5 (amended): a vocabulary token whose value is legitimately empty is
replaced by the empty string, but a placeholder-shaped token absent from
the vocabulary is left verbatim (shown here for `"(Unknown Token)"`),
untouched by the whole per-paragraph pass. -/
theorem unresolved_and_empty_placeholders :
    (∀ cd ed ia, fillParagraph (placeholderTable cd ed ia)
        [⟨lit "(Unknown Token)", none, 0⟩] = [⟨lit "(Unknown Token)", none, 0⟩])
    ∧ (∀ cd ed ia k v, (k, v) ∈ placeholderTable cd ed ia → v = [] →
        paraText (fillParagraph (placeholderTable cd ed ia) [⟨k, none, 0⟩]) = []) := by
  constructor
  · intro cd ed ia
    apply fillParagraph_noop
    intro kv hkv
    rw [paraText_single]
    apply keys_not_in_unknown
    rw [← placeholderTable_keys cd ed ia]
    exact List.mem_map.mpr ⟨kv, hkv, rfl⟩
  · intro cd ed ia k v hmem hv
    have hkmem : k ∈ placeholderKeys := by
      rw [← placeholderTable_keys cd ed ia]
      exact List.mem_map.mpr ⟨(k, v), hmem, rfl⟩
    have hk : k ≠ [] := placeholderKeys_ne_nil k hkmem
    rw [fillParagraph_single_token hk paraText_single hmem
      (by rw [placeholderTable_keys]; exact placeholderKeys_nodup)
      ?_ ?_]
    · exact hv ▸ rfl
    · intro kv hkv hne
      have h1 : kv.1 ∈ placeholderKeys := by
        rw [← placeholderTable_keys cd ed ia]
        exact List.mem_map.mpr ⟨kv, hkv, rfl⟩
      rcases placeholderKeys_pairwise kv.1 h1 k hkmem with heq | hf
      · exact absurd heq hne
      · exact hf
    · intro kv _
      subst hv
      exact hasSubstr_nil (placeholderKeys_ne_nil kv.1 (by
        rw [← placeholderTable_keys cd ed ia]
        exact List.mem_map.mpr ⟨kv, (by assumption), rfl⟩))

/-- Witness for `unresolved_and_empty_placeholders`: the `(Country)` token
with its legitimately empty value vanishes, and the unknown token
survives. -/
theorem unresolved_and_empty_placeholders_witness :
    fillParagraph (placeholderTable (lit "01/01/2024") edPlain false)
        [⟨lit "(Unknown Token)", none, 0⟩] = [⟨lit "(Unknown Token)", none, 0⟩]
    ∧ paraText (fillParagraph (placeholderTable (lit "01/01/2024") edPlain false)
        [⟨lit "(Country)", none, 0⟩]) = [] :=
  ⟨unresolved_and_empty_placeholders.1 _ _ _,
   unresolved_and_empty_placeholders.2 (lit "01/01/2024") edPlain false
     (lit "(Country)") [] (by decide) rfl⟩

/-! ### Claim C1: substitution completeness -/


theorem tableParas_fillTable (phs : List (Str × Str)) (t : Table) :
    tableParas (fillTable phs t) = (tableParas t).map (fillParagraph phs) := by
  simp [tableParas, fillTable, List.map_flatten]

theorem tableParas_fillFooterTable (phs : List (Str × Str)) (t : Table) :
    tableParas (fillFooterTable phs t) = (tableParas t).map (fillFooterParagraph phs) := by
  simp [tableParas, fillFooterTable, List.map_flatten]

theorem mem_allParas_body {doc : DocX} {q : Paragraph} (h : q ∈ doc.paragraphs) :
    q ∈ allParas doc := by
  simp only [allParas, List.mem_append]
  exact Or.inl (Or.inl h)

theorem mem_allParas_table {doc : DocX} {q : Paragraph} {t : Table}
    (ht : t ∈ doc.tables) (h : q ∈ tableParas t) : q ∈ allParas doc := by
  simp only [allParas, List.mem_append, List.mem_flatten, List.mem_map]
  exact Or.inl (Or.inr ⟨tableParas t, ⟨t, ht, rfl⟩, h⟩)



theorem mem_allParas_section {doc : DocX} {q : Paragraph} {s : DocSection}
    (hs : s ∈ doc.sections)
    (h : q ∈ s.headerParas ∨ (∃ t ∈ s.headerTables, q ∈ tableParas t)
       ∨ q ∈ s.footerParas ∨ (∃ t ∈ s.footerTables, q ∈ tableParas t)) :
    q ∈ allParas doc := by
  simp only [allParas, List.mem_append, List.mem_flatten, List.mem_map]
  refine Or.inr ⟨_, ⟨s, hs, rfl⟩, ?_⟩
  simp only [List.mem_append, List.mem_flatten, List.mem_map]
  rcases h with h | ⟨t, ht, hq⟩ | h | ⟨t, ht, hq⟩
  · exact Or.inl (Or.inl (Or.inl h))
  · exact Or.inl (Or.inl (Or.inr ⟨tableParas t, ⟨t, ht, rfl⟩, hq⟩))
  · exact Or.inl (Or.inr h)
  · exact Or.inr ⟨tableParas t, ⟨t, ht, rfl⟩, hq⟩

/-- Helper: a single-token paragraph ends the main loop token-free. -/
theorem fillParagraph_token_free (cd : Str) (ed : CanonicalRecord) (ia : Bool)
    (hvals : ∀ kv ∈ placeholderTable cd ed ia, ∀ t ∈ placeholderKeys,
      hasSubstr t kv.2 = false)
    {q : Paragraph} (hq : ∃ k ∈ placeholderKeys, paraText q = k) :
    ∀ t ∈ placeholderKeys,
      hasSubstr t (paraText (fillParagraph (placeholderTable cd ed ia) q)) = false := by
  obtain ⟨k, hk, hqk⟩ := hq
  have hk' := hk
  rw [← placeholderTable_keys cd ed ia] at hk'
  obtain ⟨kv, hkv, hfst⟩ := List.mem_map.mp hk'
  have hmem : (k, kv.2) ∈ placeholderTable cd ed ia := by
    rw [← hfst]
    exact hkv
  intro t ht
  rw [fillParagraph_single_token (placeholderKeys_ne_nil k hk) hqk hmem
    (by rw [placeholderTable_keys]; exact placeholderKeys_nodup)
    ?_ ?_]
  · exact hvals kv hkv t ht
  · intro kv' hkv' hne
    have h1 : kv'.1 ∈ placeholderKeys := by
      rw [← placeholderTable_keys cd ed ia]
      exact List.mem_map.mpr ⟨kv', hkv', rfl⟩
    rcases placeholderKeys_pairwise kv'.1 h1 k hk with heq | hf
    · exact absurd heq hne
    · exact hf
  · intro kv' hkv'
    have h1 : kv'.1 ∈ placeholderKeys := by
      rw [← placeholderTable_keys cd ed ia]
      exact List.mem_map.mpr ⟨kv', hkv', rfl⟩
    exact hvals kv hkv kv'.1 h1

/-- Helper: a single-token footer paragraph ends the footer pass
token-free. -/
theorem fillFooterParagraph_token_free (cd : Str) (ed : CanonicalRecord) (ia : Bool)
    (hvals : ∀ kv ∈ placeholderTable cd ed ia, ∀ t ∈ placeholderKeys,
      hasSubstr t kv.2 = false)
    {q : Paragraph} (hq : ∃ k ∈ placeholderKeys, paraText q = k) :
    ∀ t ∈ placeholderKeys,
      hasSubstr t (paraText (fillFooterParagraph (placeholderTable cd ed ia) q)) = false := by
  obtain ⟨k, hk, hqk⟩ := hq
  have hk' := hk
  rw [← placeholderTable_keys cd ed ia] at hk'
  obtain ⟨kv, hkv, hfst⟩ := List.mem_map.mp hk'
  have hmem : (k, kv.2) ∈ placeholderTable cd ed ia := by
    rw [← hfst]
    exact hkv
  intro t ht
  show hasSubstr t (paraText [⟨footerReplace (placeholderTable cd ed ia) (paraText q),
    some 8, 0⟩]) = false
  rw [paraText_single, hqk,
    footerReplace_single_token (placeholderKeys_ne_nil k hk) hmem
      (by rw [placeholderTable_keys]; exact placeholderKeys_nodup)
      ?_ ?_]
  · exact hvals kv hkv t ht
  · intro kv' hkv' hne
    have h1 : kv'.1 ∈ placeholderKeys := by
      rw [← placeholderTable_keys cd ed ia]
      exact List.mem_map.mpr ⟨kv', hkv', rfl⟩
    rcases placeholderKeys_pairwise kv'.1 h1 k hk with heq | hf
    · exact absurd heq hne
    · exact hf
  · intro kv' hkv'
    have h1 : kv'.1 ∈ placeholderKeys := by
      rw [← placeholderTable_keys cd ed ia]
      exact List.mem_map.mpr ⟨kv', hkv', rfl⟩
    exact hvals kv hkv kv'.1 h1

/-- C1 (amended): main theorem. -/
theorem substitution_completeness (cd : Str) (ed : CanonicalRecord) (ia : Bool)
    (doc : DocX)
    (hvals : ∀ kv ∈ placeholderTable cd ed ia, ∀ t ∈ placeholderKeys,
      hasSubstr t kv.2 = false)
    (hdoc : ∀ p ∈ allParas doc, ∃ k ∈ placeholderKeys, paraText p = k) :
    ∀ p ∈ allParas (fill_template cd ed ia doc), ∀ t ∈ placeholderKeys,
      hasSubstr t (paraText p) = false := by
  have hextra : ∀ q : Paragraph,
      (∀ t ∈ placeholderKeys, hasSubstr t (paraText q) = false) → extraPass ed q = q :=
    fun q h => extraPass_noop (fun kv hkv => h kv.1 (extraKeys_mem ed kv hkv))
  intro p hp
  simp only [allParas, fill_template, List.mem_append, List.mem_flatten, List.mem_map,
    List.mem_filter] at hp
  rcases hp with (hbody | htable) | hsect
  · -- body paragraph
    obtain ⟨⟨p1, ⟨q, hq, hq1⟩, hq2⟩, -⟩ := hbody
    subst hq1
    subst hq2
    have hfree := fillParagraph_token_free cd ed ia hvals (hdoc q (mem_allParas_body hq))
    rw [hextra _ hfree]
    exact hfree
  · -- body table cell
    obtain ⟨l, ⟨tb, ⟨t0, ht0, htb⟩, hl⟩, hpl⟩ := htable
    subst htb
    subst hl
    rw [tableParas_fillTable] at hpl
    obtain ⟨q, hq, rfl⟩ := List.mem_map.mp hpl
    exact fillParagraph_token_free cd ed ia hvals (hdoc q (mem_allParas_table ht0 hq))
  · -- section: header paragraphs/tables, footer paragraphs/tables
    obtain ⟨l, ⟨sec, ⟨s0, hs0, hsec⟩, hl⟩, hpl⟩ := hsect
    subst hsec
    subst hl
    simp only [List.mem_append, List.mem_flatten, List.mem_map] at hpl
    rcases hpl with ((hpH | ⟨l2, ⟨tb2, ⟨t0, ht0, rfl⟩, rfl⟩, hq2⟩) | hpF) |
      ⟨l2, ⟨tb2, ⟨t0, ht0, rfl⟩, rfl⟩, hq2⟩
    · obtain ⟨q, hq, rfl⟩ := hpH
      exact fillParagraph_token_free cd ed ia hvals
        (hdoc q (mem_allParas_section hs0 (Or.inl hq)))
    · rw [tableParas_fillTable] at hq2
      obtain ⟨q, hq, rfl⟩ := List.mem_map.mp hq2
      exact fillParagraph_token_free cd ed ia hvals
        (hdoc q (mem_allParas_section hs0 (Or.inr (Or.inl ⟨t0, ht0, hq⟩))))
    · obtain ⟨q, hq, rfl⟩ := hpF
      exact fillFooterParagraph_token_free cd ed ia hvals
        (hdoc q (mem_allParas_section hs0 (Or.inr (Or.inr (Or.inl hq)))))
    · rw [tableParas_fillFooterTable] at hq2
      obtain ⟨q, hq, rfl⟩ := List.mem_map.mp hq2
      exact fillFooterParagraph_token_free cd ed ia hvals
        (hdoc q (mem_allParas_section hs0 (Or.inr (Or.inr (Or.inr ⟨t0, ht0, hq⟩)))))


/-- A record whose `first_name` value is itself a recognised token. -/
def edTokenValue : CanonicalRecord := { edPlain with first_name := lit "(Current Date)" }

/-- A document whose only paragraph is the `(First Name)` token. -/
def docFirstName : DocX where
  paragraphs := [[⟨lit "(First Name)", none, 0⟩]]
  tables := []
  sections := []

/-- C1 counterexample: every paragraph of `docFirstName` contains a
recognised token, yet when the `first_name` value is itself the token
`(Current Date)` — whose table entry was already processed earlier in the
iteration — the output's only body paragraph reads exactly
`(Current Date)`, a recognised token remaining after `fill_template`. -/
theorem substitution_completeness_counterexample :
    (allParas docFirstName).all
        (fun p => placeholderKeys.any (fun t => hasSubstr t (paraText p))) = true
    ∧ paraText ((fill_template (lit "01/01/2024") edTokenValue false
        docFirstName).paragraphs.headD []) = lit "(Current Date)"
    ∧ (lit "(Current Date)") ∈ placeholderKeys := by
  refine ⟨by decide, by decide, by decide⟩

/-- A template exercising all four zones with single-token paragraphs, the
body one split across two runs. -/
def docTokens : DocX where
  paragraphs := [[⟨lit "(First ", none, 1⟩, ⟨lit "Name)", none, 2⟩]]
  tables := [[[[[⟨lit "(Company)", none, 0⟩]]]]]
  sections := [{ headerParas := [[⟨lit "(Position)", none, 0⟩]]
                 headerTables := []
                 footerParas := [[⟨lit "(Current Date)", none, 4⟩]]
                 footerTables := [] }]

/-- Witness for `substitution_completeness`: in the filled `docTokens`, the
body paragraph (token split across runs, resolved through the fallback)
contains no trace of `(First Name)`. -/
theorem substitution_completeness_witness :
    hasSubstr (lit "(First Name)")
      (paraText [⟨lit "Jane", none, 1⟩, ⟨[], none, 2⟩]) = false :=
  substitution_completeness (lit "01/01/2024") edPlain false docTokens
    (by decide) (by decide) [⟨lit "Jane", none, 1⟩, ⟨[], none, 2⟩] (by decide)
    (lit "(First Name)") (by decide)

end Templates
